import Mathlib

/-! Shallow embedding of the storage/execution engine of a minimal RDBMS
(files rdbms/types.py, rdbms/catalog.py, rdbms/index.py, rdbms/storage.py,
rdbms/table.py).  Python dicts with string keys are modelled as ordered
association lists with Python dict-assignment semantics (`aset`); the JSONL
table file is modelled as the list of its row records in order (JSON
round-trips the stored value types exactly, and no blank line is ever
written, so `read_rows` is the identity on this model and `count_rows` is
the list length).  The state of one `MiniDB` instance restricted to a
single table is modelled; distinct tables share no state in the source
(row files and index dictionaries are keyed by table name), so per-table
modelling is faithful.  Python `ValueError`/`KeyError` exceptions are
modelled by the `Err` kinds the spec names. -/

/-- The Python values the engine stores and receives from the parser:
`None`, `int`, `str`, `bool`. -/
inductive PyVal where
  | none
  | int (n : Int)
  | str (s : String)
  | bool (b : Bool)
deriving DecidableEq

/-- Numeric view used by Python `==`: `bool` is a subtype of `int` in
Python, so `True` compares equal to `1`. -/
def pyNum : PyVal → Option Int
  | .int n => some n
  | .bool b => some (if b then 1 else 0)
  | _ => Option.none

/-- Python `==` restricted to the value types the engine stores: numbers
(including booleans) compare numerically, strings structurally, `None`
equals only `None`, and values of unrelated types compare unequal. -/
def pyEq (a b : PyVal) : Bool :=
  match a, b with
  | .none, .none => true
  | .str s, .str t => decide (s = t)
  | a, b =>
    match pyNum a, pyNum b with
    | some m, some n => decide (m = n)
    | _, _ => false

/-- Lookup in an association-list model of a Python `dict` keyed by
strings. -/
def alookup {α : Type} : List (String × α) → String → Option α
  | [], _ => Option.none
  | (k', v) :: rest, k => if k' = k then some v else alookup rest k

/-- Python `d[k] = v`: replaces the value in place if the key is present,
appends at the end otherwise (insertion order preserved, as for a Python
dict). -/
def aset {α : Type} : List (String × α) → String → α → List (String × α)
  | [], k, v => [(k, v)]
  | (k', w) :: rest, k, v =>
    if k' = k then (k, v) :: rest else (k', w) :: aset rest k v

/-- A row record / user row: a Python dict from column name to value. -/
abbrev Dict := List (String × PyVal)

/-- Python `d.get(k)`, defaulting to `None`. -/
def dictGetD (m : Dict) (k : String) : PyVal :=
  (alookup m k).getD PyVal.none

/-- The error kinds the engine raises (Python `ValueError`/`KeyError`),
named as in the spec. -/
inductive Err where
  | typeError
  | notNullViolation
  | uniqueViolation
  | unknownColumn
  | unsupportedOperator
  | keyError
deriving DecidableEq

/-- Result of a pure computation that may raise. -/
inductive CRes (α : Type) where
  | ok (a : α)
  | err (e : Err)
deriving DecidableEq

/-- Lookup in a Python dict with arbitrary keys, compared with Python
`==` (used by `HashIndex.map`). -/
def pyLookup : List (PyVal × PyVal) → PyVal → Option PyVal
  | [], _ => Option.none
  | (k, r) :: rest, v => if pyEq k v then some r else pyLookup rest v

/-- `index.py HashIndex`: in-memory map from a column value to a row id. -/
structure HashIndex where
  map : List (PyVal × PyVal)
deriving DecidableEq

def HashIndex.empty : HashIndex := ⟨[]⟩

/-- `HashIndex.get`: `self.map.get(value)`. -/
def HashIndex.get (idx : HashIndex) (v : PyVal) : Option PyVal :=
  pyLookup idx.map v

/-- `HashIndex.add`: raises if the value is already present, otherwise
`self.map[value] = rid` (a fresh key appends in insertion order). -/
def HashIndex.add (idx : HashIndex) (v rid : PyVal) : CRes HashIndex :=
  match idx.get v with
  | some _ => .err .uniqueViolation
  | Option.none => .ok ⟨idx.map ++ [(v, rid)]⟩

/-- `types.py ColumnType`. -/
inductive ColumnType where
  | INT
  | TEXT
  | BOOL
deriving DecidableEq

/-- `catalog.py Column`. -/
structure Column where
  name : String
  col_type : ColumnType
  primary_key : Bool
  unique : Bool
  not_null : Bool
deriving DecidableEq

/-- `catalog.py TableSchema`. -/
structure TableSchema where
  name : String
  columns : List Column
deriving DecidableEq

/-- First-occurrence deduplication, determinizing the Python `set`
comprehension of `TableSchema.unique_columns` (claims never depend on the
iteration order of that set, only on its membership). -/
def dedupAux (seen : List String) : List String → List String
  | [] => []
  | x :: xs => if x ∈ seen then dedupAux seen xs else x :: dedupAux (x :: seen) xs

/-- `TableSchema.unique_columns`: names of columns that are `unique` or
`primary_key` (PRIMARY KEY implies UNIQUE). -/
def uniqueColumns (s : TableSchema) : List String :=
  dedupAux [] ((s.columns.filter (fun c => c.unique || c.primary_key)).map Column.name)

/-- `TableSchema.column_map`: Python dict built by inserting each column
under its name in declaration order (a duplicate name overwrites the
value, keeping the first position, as Python dicts do). -/
def columnMap (cols : List Column) : List (String × Column) :=
  cols.foldl (fun m c => aset m c.name c) []

/-- Python `str(value)` on the stored value types. -/
def pyStr : PyVal → String
  | .none => "None"
  | .int n => toString n
  | .str s => s
  | .bool b => if b then "True" else "False"

/-- Python `str.strip()`, on the character list of a string. -/
def stripChars (cs : List Char) : List Char :=
  ((cs.dropWhile Char.isWhitespace).reverse.dropWhile Char.isWhitespace).reverse

/-- Python `str.lower()`, on the character list of a string. -/
def lowerChars (cs : List Char) : List Char :=
  cs.map Char.toLower

/-- Python `int(s)` on a decimal string: surrounding whitespace is
stripped, an optional sign is allowed, then at least one digit; anything
else raises.  (Python additionally allows digit-group underscores and
non-ASCII digits; the repository's parser only ever feeds strings, and the
claims do not depend on which strings parse.) -/
def pyParseInt (s : String) : Option Int :=
  let cs := stripChars s.data
  let p : Int × List Char :=
    match cs with
    | '-' :: rest => (-1, rest)
    | '+' :: rest => (1, rest)
    | _ => (1, cs)
  if p.2.isEmpty || !p.2.all Char.isDigit then Option.none
  else some (p.1 * (p.2.foldl (fun a c => a * 10 + (c.toNat - 48)) (0 : Nat) : Nat))

/-- `types.py coerce_value`: converts a user-provided value to the
column's declared type, or raises. -/
def coerce_value (t : ColumnType) (v : PyVal) : CRes PyVal :=
  match v with
  | .none => .ok .none
  | _ =>
    match t with
    | .INT =>
      match v with
      | .bool _ => .err .typeError
      | .int n => .ok (.int n)
      | .str s =>
        match pyParseInt s with
        | some n => .ok (.int n)
        | Option.none => .err .typeError
      | .none => .ok .none
    | .TEXT => .ok (.str (pyStr v))
    | .BOOL =>
      match v with
      | .bool b => .ok (.bool b)
      | _ =>
        let s := lowerChars (stripChars (pyStr v).data)
        if s = "true".data ∨ s = "1".data ∨ s = "yes".data then .ok (.bool true)
        else if s = "false".data ∨ s = "0".data ∨ s = "no".data then .ok (.bool false)
        else .err .typeError

/-- Step 1 of `MiniDB.insert`: for every column of the schema (in
`column_map` order), coerce `row.get(col_name)` and check NOT NULL,
accumulating the coerced row. -/
def coerceRowAux (row : Dict) : List (String × Column) → Dict → CRes Dict
  | [], acc => .ok acc
  | (nm, col) :: rest, acc =>
    match coerce_value col.col_type (dictGetD row nm) with
    | .err e => .err e
    | .ok v =>
      if col.not_null ∧ v = PyVal.none then .err .notNullViolation
      else coerceRowAux row rest (aset acc nm v)

def coerceRow (cmap : List (String × Column)) (row : Dict) : CRes Dict :=
  coerceRowAux row cmap []

/-- The engine's per-table index dictionary
(`self.indexes[table] : column name → HashIndex`). -/
abbrev Indexes := List (String × HashIndex)

/-- Step 2 of `MiniDB.insert`: for each unique/PK column whose coerced
value is not `None`, look up `self.indexes[table][ucol]` (a missing entry
is a Python `KeyError`) and raise if the value is already indexed. -/
def checkUnique (idxs : Indexes) (c : Dict) : List String → CRes Unit
  | [] => .ok ()
  | u :: us =>
    if dictGetD c u = PyVal.none then checkUnique idxs c us
    else
      match alookup idxs u with
      | Option.none => .err .keyError
      | some idx =>
        match idx.get (dictGetD c u) with
        | some _ => .err .uniqueViolation
        | Option.none => checkUnique idxs c us

/-- Result of an index-mutating loop; the error case carries the
partially mutated index dictionary, as Python exceptions leave in-place
mutations behind. -/
inductive IRes where
  | ok (idxs : Indexes)
  | err (e : Err) (idxs : Indexes)
deriving DecidableEq

/-- The index-maintenance loop shared verbatim by step 4 of
`MiniDB.insert` and the row scan of `_rebuild_indexes_for_table`: for each
unique/PK column whose value in `r` is not `None`, add `value → rid` to
that column's index. -/
def addToIndexes (r : Dict) (rid : PyVal) : List String → Indexes → IRes
  | [], idxs => .ok idxs
  | u :: us, idxs =>
    if dictGetD r u = PyVal.none then addToIndexes r rid us idxs
    else
      match alookup idxs u with
      | Option.none => .err .keyError idxs
      | some idx =>
        match idx.add (dictGetD r u) rid with
        | .err e => .err e idxs
        | .ok idx' => addToIndexes r rid us (aset idxs u idx')

/-- `storage.py Storage.append_row`: assigns `_rid = count_rows(table)`
(the number of lines in the file), sets `row["_rid"]`, appends the record,
and returns the assigned id. -/
def Storage.append_row (file : List Dict) (row : Dict) : List Dict × Nat :=
  let rid := file.length
  (file ++ [aset row "_rid" (.int rid)], rid)

/-- `table.py MiniDB`, restricted to one table: its schema, the persisted
row file, and the in-memory uniqueness indexes. -/
structure MiniDB where
  schema : TableSchema
  file : List Dict
  indexes : Indexes
deriving DecidableEq

/-- Outcome of one engine operation: success with the returned integer
(`_rid` for INSERT, affected-row count for UPDATE/DELETE) or a raised
error; both carry the resulting state. -/
inductive StepResult where
  | ok (db : MiniDB) (n : Nat)
  | err (e : Err) (db : MiniDB)
deriving DecidableEq

/-- `MiniDB.create_table`: the state of a freshly created table — no rows,
one empty `HashIndex` per unique/PK column.  (Catalog persistence and the
duplicate-table / single-PK validation concern other tables' state and the
catalog file, not this table's rows or indexes.) -/
def MiniDB.create_table (schema : TableSchema) : MiniDB :=
  ⟨schema, [], (uniqueColumns schema).map (fun c => (c, HashIndex.empty))⟩

/-- `MiniDB.insert`: (1) coerce + NOT NULL per schema column, (2) check
the uniqueness indexes, (3) append to the row file, (4) update the
indexes.  Steps 1–2 raise before any mutation; an error in step 4 would
leave the appended row and any already-updated indexes behind. -/
def MiniDB.insert (db : MiniDB) (row : Dict) : StepResult :=
  match coerceRow (columnMap db.schema.columns) row with
  | .err e => .err e db
  | .ok coerced =>
    match checkUnique db.indexes coerced (uniqueColumns db.schema) with
    | .err e => .err e db
    | .ok _ =>
      match addToIndexes coerced (.int (Storage.append_row db.file coerced).2)
          (uniqueColumns db.schema) db.indexes with
      | .err e idxs' => .err e ⟨db.schema, (Storage.append_row db.file coerced).1, idxs'⟩
      | .ok idxs' =>
        .ok ⟨db.schema, (Storage.append_row db.file coerced).1, idxs'⟩
          (Storage.append_row db.file coerced).2

/-- One WHERE condition `(column, operator, literal)`. -/
abbrev Cond := String × String × PyVal

/-- The conjunction loop of `MiniDB._match_where`: checks each condition's
operator, returns `False` on the first non-matching equality (later
conditions are then not examined, as in the Python loop). -/
def matchConds (row : Dict) : List Cond → CRes Bool
  | [] => .ok true
  | (col, op, val) :: rest =>
    if op = "=" then
      if pyEq (dictGetD row col) val then matchConds row rest
      else .ok false
    else .err .unsupportedOperator

/-- `MiniDB._match_where`: a missing (or empty, Python-falsy) WHERE
matches every row. -/
def matchWhere (row : Dict) (w : Option (List Cond)) : CRes Bool :=
  match w with
  | Option.none => .ok true
  | some conds => matchConds row conds

/-- The per-row assignment loop of `MiniDB.update`: each assigned column
must exist in the schema, its new value is coerced and NOT-NULL-checked,
and the row copy is updated in place. -/
def applyAssignments (cmap : List (String × Column)) : List (String × PyVal) → Dict → CRes Dict
  | [], r => .ok r
  | (col, nv) :: rest, r =>
    match alookup cmap col with
    | Option.none => .err .unknownColumn
    | some c =>
      match coerce_value c.col_type nv with
      | .err e => .err e
      | .ok v =>
        if c.not_null ∧ v = PyVal.none then .err .notNullViolation
        else applyAssignments cmap rest (aset r col v)

/-- The row loop of `MiniDB.update`: rows matching WHERE are replaced by
their updated copies and counted, other rows pass through; the first
raised error aborts before any rewrite. -/
def updateRows (cmap : List (String × Column)) (updates : List (String × PyVal))
    (w : Option (List Cond)) : List Dict → CRes (List Dict × Nat)
  | [] => .ok ([], 0)
  | r :: rs =>
    match matchWhere r w with
    | .err e => .err e
    | .ok true =>
      match applyAssignments cmap updates r with
      | .err e => .err e
      | .ok r' =>
        match updateRows cmap updates w rs with
        | .err e => .err e
        | .ok (rs', n) => .ok (r' :: rs', n + 1)
    | .ok false =>
      match updateRows cmap updates w rs with
      | .err e => .err e
      | .ok (rs', n) => .ok (r :: rs', n)

/-- The row scan of `_rebuild_indexes_for_table`: each persisted row's
`r["_rid"]` (a `KeyError` if absent) is indexed under every unique/PK
column value. -/
def rebuildRows (ucols : List String) : List Dict → Indexes → IRes
  | [], idxs => .ok idxs
  | r :: rs, idxs =>
    match alookup r "_rid" with
    | Option.none => .err .keyError idxs
    | some rid =>
      match addToIndexes r rid ucols idxs with
      | .err e idxs' => .err e idxs'
      | .ok idxs' => rebuildRows ucols rs idxs'

/-- `MiniDB._rebuild_indexes_for_table`: installs fresh empty indexes for
every unique/PK column, then scans the persisted rows. -/
def rebuildIndexes (schema : TableSchema) (rows : List Dict) : IRes :=
  rebuildRows (uniqueColumns schema) rows
    ((uniqueColumns schema).map (fun c => (c, HashIndex.empty)))

/-- `MiniDB.update`: build the updated row list (raising before any
rewrite on a bad operator, unknown column, coercion failure, or NOT NULL
violation), rewrite the file wholesale, then rebuild the indexes (whose
failure leaves the already-rewritten file behind). -/
def MiniDB.update (db : MiniDB) (updates : List (String × PyVal))
    (w : Option (List Cond)) : StepResult :=
  match updateRows (columnMap db.schema.columns) updates w db.file with
  | .err e => .err e db
  | .ok (newRows, n) =>
    match rebuildIndexes db.schema newRows with
    | .err e idxs' => .err e ⟨db.schema, newRows, idxs'⟩
    | .ok idxs' => .ok ⟨db.schema, newRows, idxs'⟩ n

/-- The row loop of `MiniDB.delete`: rows matching WHERE are dropped and
counted, the others kept verbatim. -/
def deleteRows (w : Option (List Cond)) : List Dict → CRes (List Dict × Nat)
  | [] => .ok ([], 0)
  | r :: rs =>
    match matchWhere r w with
    | .err e => .err e
    | .ok true =>
      match deleteRows w rs with
      | .err e => .err e
      | .ok (rs', n) => .ok (rs', n + 1)
    | .ok false =>
      match deleteRows w rs with
      | .err e => .err e
      | .ok (rs', n) => .ok (r :: rs', n)

/-- `MiniDB.delete`: filter the rows, rewrite the file with the kept
sequence, rebuild the indexes. -/
def MiniDB.delete (db : MiniDB) (w : Option (List Cond)) : StepResult :=
  match deleteRows w db.file with
  | .err e => .err e db
  | .ok (kept, n) =>
    match rebuildIndexes db.schema kept with
    | .err e idxs' => .err e ⟨db.schema, kept, idxs'⟩
    | .ok idxs' => .ok ⟨db.schema, kept, idxs'⟩ n

/-- A DML statement against the (single modelled) table. -/
inductive Op where
  | ins (row : Dict)
  | upd (updates : List (String × PyVal)) (w : Option (List Cond))
  | del (w : Option (List Cond))
deriving DecidableEq

def Op.isDel : Op → Bool
  | .del _ => true
  | _ => false

/-- State after an operation, whether it returned or raised (Python
exceptions leave whatever mutations already happened). -/
def stateOf : StepResult → MiniDB
  | .ok db _ => db
  | .err _ db => db

def applyOp (db : MiniDB) : Op → MiniDB
  | .ins r => stateOf (db.insert r)
  | .upd u w => stateOf (db.update u w)
  | .del w => stateOf (db.delete w)

/-- The table state reached from CREATE TABLE by a sequence of DML
statements. -/
def runOps (schema : TableSchema) (ops : List Op) : MiniDB :=
  ops.foldl applyOp (MiniDB.create_table schema)

/-- Well-formedness of the engine state: every unique/PK column has an
entry in the table's index dictionary.  `create_table` establishes this
and every operation preserves it. -/
def WF (db : MiniDB) : Prop :=
  ∀ u ∈ uniqueColumns db.schema, (alookup db.indexes u).isSome

instance decidableWF (db : MiniDB) : Decidable (WF db) := by
  unfold WF
  infer_instance

example : coerce_value .INT (.str "42") = .ok (.int 42) := by decide
example : coerce_value .BOOL (.str "yes") = .ok (.bool true) := by decide
example : coerce_value .BOOL (.str "maybe") = .err .typeError := by decide
example : coerce_value .INT (.bool true) = .err .typeError := by decide

/-! Dictionary and index lemmas. -/

theorem alookup_aset_self {α : Type} (m : List (String × α)) (k : String) (v : α) :
    alookup (aset m k v) k = some v := by
  induction m with
  | nil => simp [aset, alookup]
  | cons p rest ih =>
    obtain ⟨k', w⟩ := p
    by_cases h : k' = k
    · simp [aset, h, alookup]
    · simp [aset, h, alookup, ih]

theorem alookup_aset_ne {α : Type} (m : List (String × α)) (k k' : String) (v : α)
    (h : k' ≠ k) : alookup (aset m k v) k' = alookup m k' := by
  induction m with
  | nil => simp [aset, alookup, Ne.symm h]
  | cons p rest ih =>
    obtain ⟨k₀, w⟩ := p
    by_cases hk : k₀ = k
    · subst hk
      simp [aset, alookup, Ne.symm h]
    · simp [aset, hk, alookup, ih]

theorem alookup_aset_isSome {α : Type} (m : List (String × α)) (k k' : String) (v w : α)
    (hm : alookup m k = some w) :
    (alookup (aset m k v) k').isSome = (alookup m k').isSome := by
  by_cases h : k' = k
  · subst h
    rw [alookup_aset_self, hm]
    rfl
  · rw [alookup_aset_ne m k k' v h]

theorem pyEq_refl (v : PyVal) : pyEq v v = true := by
  cases v <;> simp [pyEq, pyNum]

theorem pyLookup_append_self (m : List (PyVal × PyVal)) (v r : PyVal)
    (h : pyLookup m v = Option.none) :
    pyLookup (m ++ [(v, r)]) v = some r := by
  induction m with
  | nil => simp [pyLookup, pyEq_refl]
  | cons p rest ih =>
    obtain ⟨k, w⟩ := p
    by_cases hk : pyEq k v = true
    · simp [pyLookup, hk] at h
    · simp only [pyLookup, hk] at h
      simp only [List.cons_append, pyLookup, hk]
      simp only [Bool.false_eq_true, if_false]
      exact ih h

theorem HashIndex.get_add_self (idx idx' : HashIndex) (v r : PyVal)
    (h : idx.add v r = .ok idx') : idx'.get v = some r := by
  unfold HashIndex.add at h
  cases hg : idx.get v with
  | some w => simp [hg] at h
  | none =>
    rw [hg] at h
    injection h with h
    subst h
    show pyLookup (idx.map ++ [(v, r)]) v = some r
    exact pyLookup_append_self idx.map v r hg

theorem mem_dedupAux (x : String) (l : List String) :
    ∀ seen, x ∈ dedupAux seen l → x ∉ seen := by
  induction l with
  | nil => intro seen h; simp [dedupAux] at h
  | cons y ys ih =>
    intro seen h
    by_cases hy : y ∈ seen
    · exact ih seen (by simpa [dedupAux, hy] using h)
    · simp only [dedupAux, hy, if_false, List.mem_cons] at h
      rcases h with rfl | h
      · exact hy
      · have h2 := ih (y :: seen) h
        intro hx
        exact h2 (List.mem_cons_of_mem _ hx)

theorem nodup_dedupAux (l : List String) : ∀ seen, (dedupAux seen l).Nodup := by
  induction l with
  | nil => intro seen; simp [dedupAux]
  | cons y ys ih =>
    intro seen
    by_cases hy : y ∈ seen
    · simpa [dedupAux, hy] using ih seen
    · simp only [dedupAux, hy, if_false, List.nodup_cons]
      refine ⟨?_, ih (y :: seen)⟩
      intro hmem
      exact (mem_dedupAux y ys (y :: seen) hmem) (List.mem_cons_self y seen)

theorem nodup_uniqueColumns (s : TableSchema) : (uniqueColumns s).Nodup :=
  nodup_dedupAux _ []

theorem mem_dedupAux_of (x : String) (l : List String) :
    ∀ seen, x ∈ l → x ∉ seen → x ∈ dedupAux seen l := by
  induction l with
  | nil => intro seen h; simp at h
  | cons y ys ih =>
    intro seen hx hseen
    by_cases hy : y ∈ seen
    · rcases List.mem_cons.mp hx with rfl | h
      · exact absurd hy hseen
      · simpa [dedupAux, hy] using ih seen h hseen
    · simp only [dedupAux, hy, if_false, List.mem_cons]
      by_cases hxy : x = y
      · exact Or.inl hxy
      · rcases List.mem_cons.mp hx with rfl | h
        · exact absurd rfl hxy
        · refine Or.inr (ih (y :: seen) h ?_)
          intro hmem
          rcases List.mem_cons.mp hmem with h2 | h2
          · exact hxy h2
          · exact hseen h2

theorem mem_uniqueColumns_of (s : TableSchema) (c : Column)
    (hc : c ∈ s.columns) (hpk : (c.unique || c.primary_key) = true) :
    c.name ∈ uniqueColumns s :=
  mem_dedupAux_of _ _ []
    (List.mem_map_of_mem Column.name (List.mem_filter.mpr ⟨hc, hpk⟩))
    (by simp)

theorem alookup_columnMap_aux (k : String) :
    ∀ (cols : List Column) (m : List (String × Column)),
      k ∉ cols.map Column.name → alookup m k = Option.none →
      alookup (cols.foldl (fun m c => aset m c.name c) m) k = Option.none := by
  intro cols
  induction cols with
  | nil => intro m _ hm; simpa using hm
  | cons c cs ih =>
    intro m h hm
    simp only [List.map_cons, List.mem_cons, not_or] at h
    simp only [List.foldl_cons]
    refine ih (aset m c.name c) h.2 ?_
    rw [alookup_aset_ne m c.name k c h.1]
    exact hm

theorem alookup_columnMap_none (cols : List Column) (k : String)
    (h : k ∉ cols.map Column.name) : alookup (columnMap cols) k = Option.none :=
  alookup_columnMap_aux k cols [] h rfl


/-! Alignment of `MiniDB.insert`'s uniqueness pre-check (step 2) with its
index-update loop (step 4): over a duplicate-free column list, a passed
pre-check guarantees the update loop cannot raise. -/

theorem checkUnique_aset (idxs : Indexes) (c : Dict) (u : String) (idx : HashIndex) :
    ∀ us : List String, u ∉ us →
      checkUnique (aset idxs u idx) c us = checkUnique idxs c us := by
  intro us
  induction us with
  | nil => intro _; rfl
  | cons u' us' ih =>
    intro h
    have h1 : u' ≠ u := fun e => h (by simp [e])
    have h2 : u ∉ us' := fun hm => h (List.mem_cons_of_mem _ hm)
    by_cases hv : dictGetD c u' = PyVal.none
    · simp only [checkUnique, if_pos hv]
      exact ih h2
    · simp only [checkUnique, if_neg hv]
      rw [alookup_aset_ne idxs u u' idx h1]
      cases hl : alookup idxs u' with
      | none => rfl
      | some idx0 =>
        simp only
        cases hg : idx0.get (dictGetD c u') with
        | none => simp only; exact ih h2
        | some _ => rfl

theorem addToIndexes_ok_of_check (c : Dict) (rid : PyVal) :
    ∀ (us : List String) (idxs : Indexes), us.Nodup →
      checkUnique idxs c us = .ok () →
      ∃ idxs', addToIndexes c rid us idxs = .ok idxs' := by
  intro us
  induction us with
  | nil => intro idxs _ _; exact ⟨idxs, rfl⟩
  | cons u us' ih =>
    intro idxs hnd hchk
    obtain ⟨hu, hnd'⟩ := List.nodup_cons.mp hnd
    by_cases hv : dictGetD c u = PyVal.none
    · simp only [checkUnique, if_pos hv] at hchk
      simp only [addToIndexes, if_pos hv]
      exact ih idxs hnd' hchk
    · simp only [checkUnique, if_neg hv] at hchk
      cases ha : alookup idxs u with
      | none => simp only [ha] at hchk; exact CRes.noConfusion hchk
      | some idx =>
        simp only [ha] at hchk
        cases hg : idx.get (dictGetD c u) with
        | some w => simp only [hg] at hchk; exact CRes.noConfusion hchk
        | none =>
          simp only [hg] at hchk
          simp only [addToIndexes, if_neg hv, ha]
          have hadd : idx.add (dictGetD c u) rid = .ok ⟨idx.map ++ [(dictGetD c u, rid)]⟩ := by
            unfold HashIndex.add
            rw [hg]
          simp only [hadd]
          refine ih _ hnd' ?_
          rw [checkUnique_aset idxs c u _ us' hu]
          exact hchk

theorem addToIndexes_isSome (c : Dict) (rid : PyVal) :
    ∀ (us : List String) (idxs idxs' : Indexes),
      addToIndexes c rid us idxs = .ok idxs' →
      ∀ u', (alookup idxs' u').isSome = (alookup idxs u').isSome := by
  intro us
  induction us with
  | nil =>
    intro idxs idxs' h u'
    injection h with h
    rw [h]
  | cons u us' ih =>
    intro idxs idxs' h u'
    by_cases hv : dictGetD c u = PyVal.none
    · simp only [addToIndexes, if_pos hv] at h
      exact ih idxs idxs' h u'
    · simp only [addToIndexes, if_neg hv] at h
      cases ha : alookup idxs u with
      | none => simp only [ha] at h; exact IRes.noConfusion h
      | some idx =>
        simp only [ha] at h
        cases hadd : idx.add (dictGetD c u) rid with
        | err e => simp only [hadd] at h; exact IRes.noConfusion h
        | ok idx2 =>
          simp only [hadd] at h
          rw [ih _ _ h u']
          exact alookup_aset_isSome idxs u u' idx2 idx ha

theorem addToIndexes_lookup_of_notMem (c : Dict) (rid : PyVal) (u0 : String) :
    ∀ (us : List String) (idxs idxs' : Indexes), u0 ∉ us →
      addToIndexes c rid us idxs = .ok idxs' →
      alookup idxs' u0 = alookup idxs u0 := by
  intro us
  induction us with
  | nil =>
    intro idxs idxs' _ h
    injection h with h
    rw [h]
  | cons u us' ih =>
    intro idxs idxs' hmem h
    have h1 : u ≠ u0 := fun e => hmem (by simp [e])
    have h2 : u0 ∉ us' := fun hm => hmem (List.mem_cons_of_mem _ hm)
    by_cases hv : dictGetD c u = PyVal.none
    · simp only [addToIndexes, if_pos hv] at h
      exact ih idxs idxs' h2 h
    · simp only [addToIndexes, if_neg hv] at h
      cases ha : alookup idxs u with
      | none => simp only [ha] at h; exact IRes.noConfusion h
      | some idx =>
        simp only [ha] at h
        cases hadd : idx.add (dictGetD c u) rid with
        | err e => simp only [hadd] at h; exact IRes.noConfusion h
        | ok idx2 =>
          simp only [hadd] at h
          rw [ih _ _ h2 h]
          exact alookup_aset_ne idxs u u0 idx2 (fun e => h1 e.symm)

theorem addToIndexes_get_self (c : Dict) (rid : PyVal) (pk : String) :
    ∀ (us : List String) (idxs idxs' : Indexes), us.Nodup → pk ∈ us →
      dictGetD c pk ≠ PyVal.none →
      addToIndexes c rid us idxs = .ok idxs' →
      ∃ idx, alookup idxs' pk = some idx ∧ (idx.get (dictGetD c pk)).isSome = true := by
  intro us
  induction us with
  | nil => intro idxs idxs' _ hmem; simp at hmem
  | cons u us' ih =>
    intro idxs idxs' hnd hmem hv h
    obtain ⟨hnd1, hnd2⟩ := List.nodup_cons.mp hnd
    by_cases heq : u = pk
    · subst heq
      simp only [addToIndexes, if_neg hv] at h
      cases ha : alookup idxs u with
      | none => simp only [ha] at h; exact IRes.noConfusion h
      | some idx =>
        simp only [ha] at h
        cases hadd : idx.add (dictGetD c u) rid with
        | err e => simp only [hadd] at h; exact IRes.noConfusion h
        | ok idx2 =>
          simp only [hadd] at h
          have hpres := addToIndexes_lookup_of_notMem c rid u us' _ _ hnd1 h
          rw [alookup_aset_self] at hpres
          refine ⟨idx2, hpres, ?_⟩
          rw [HashIndex.get_add_self idx idx2 _ _ hadd]
          rfl
    · have hmem' : pk ∈ us' := by
        rcases List.mem_cons.mp hmem with h2 | h2
        · exact absurd h2.symm heq
        · exact h2
      by_cases hv0 : dictGetD c u = PyVal.none
      · simp only [addToIndexes, if_pos hv0] at h
        exact ih idxs idxs' hnd2 hmem' hv h
      · simp only [addToIndexes, if_neg hv0] at h
        cases ha : alookup idxs u with
        | none => simp only [ha] at h; exact IRes.noConfusion h
        | some idx =>
          simp only [ha] at h
          cases hadd : idx.add (dictGetD c u) rid with
          | err e => simp only [hadd] at h; exact IRes.noConfusion h
          | ok idx2 =>
            simp only [hadd] at h
            exact ih _ idxs' hnd2 hmem' hv h

theorem checkUnique_err_of_present (c : Dict) (pk : String) (vpk : PyVal) :
    ∀ (us : List String) (idxs : Indexes),
      pk ∈ us →
      (∀ u ∈ us, (alookup idxs u).isSome = true) →
      dictGetD c pk = vpk → vpk ≠ PyVal.none →
      (∀ idx, alookup idxs pk = some idx → (idx.get vpk).isSome = true) →
      checkUnique idxs c us = .err .uniqueViolation := by
  intro us
  induction us with
  | nil => intro idxs hmem; simp at hmem
  | cons u us' ih =>
    intro idxs hmem hwf hv hnn hidx
    by_cases hveq : dictGetD c u = PyVal.none
    · have hne : u ≠ pk := by
        intro e
        rw [e, hv] at hveq
        exact hnn hveq
      have hmem' : pk ∈ us' := by
        rcases List.mem_cons.mp hmem with h2 | h2
        · exact absurd h2 (fun e => hne e.symm)
        · exact h2
      simp only [checkUnique, if_pos hveq]
      exact ih idxs hmem' (fun x hx => hwf x (List.mem_cons_of_mem _ hx)) hv hnn hidx
    · simp only [checkUnique, if_neg hveq]
      cases ha : alookup idxs u with
      | none =>
        have hS := hwf u (List.mem_cons_self u us')
        rw [ha] at hS
        simp at hS
      | some idx =>
        simp only
        cases hg : idx.get (dictGetD c u) with
        | some w => rfl
        | none =>
          simp only
          have hne : u ≠ pk := by
            intro e
            subst e
            have hP := hidx idx ha
            rw [hv] at hg
            rw [hg] at hP
            simp at hP
          have hmem' : pk ∈ us' := by
            rcases List.mem_cons.mp hmem with h2 | h2
            · exact absurd h2.symm hne
            · exact h2
          exact ih idxs hmem' (fun x hx => hwf x (List.mem_cons_of_mem _ hx)) hv hnn hidx

/-! Specification lemmas for `MiniDB.insert`. -/

theorem append_row_fst (file : List Dict) (row : Dict) :
    (Storage.append_row file row).1 = file ++ [aset row "_rid" (.int file.length)] := rfl

theorem append_row_snd (file : List Dict) (row : Dict) :
    (Storage.append_row file row).2 = file.length := rfl

theorem insert_err_state (db : MiniDB) (row : Dict) (e : Err) (db' : MiniDB)
    (h : db.insert row = .err e db') : db' = db := by
  unfold MiniDB.insert at h
  cases hc : coerceRow (columnMap db.schema.columns) row with
  | err e0 =>
    simp only [hc] at h
    injection h with h1 h2
    exact h2.symm
  | ok coerced =>
    simp only [hc] at h
    cases hk : checkUnique db.indexes coerced (uniqueColumns db.schema) with
    | err e0 =>
      simp only [hk] at h
      injection h with h1 h2
      exact h2.symm
    | ok u =>
      cases u
      simp only [hk] at h
      obtain ⟨idxs0, hok⟩ := addToIndexes_ok_of_check coerced
        (.int (Storage.append_row db.file coerced).2) (uniqueColumns db.schema)
        db.indexes (nodup_uniqueColumns db.schema) hk
      simp only [hok] at h
      exact StepResult.noConfusion h

theorem insert_ok_spec (db : MiniDB) (row : Dict) (db' : MiniDB) (rid : Nat)
    (h : db.insert row = .ok db' rid) :
    rid = db.file.length ∧
    ∃ coerced idxs',
      coerceRow (columnMap db.schema.columns) row = .ok coerced ∧
      checkUnique db.indexes coerced (uniqueColumns db.schema) = .ok () ∧
      addToIndexes coerced (.int db.file.length) (uniqueColumns db.schema) db.indexes
        = .ok idxs' ∧
      db' = ⟨db.schema, db.file ++ [aset coerced "_rid" (.int db.file.length)], idxs'⟩ := by
  unfold MiniDB.insert at h
  cases hc : coerceRow (columnMap db.schema.columns) row with
  | err e0 => simp only [hc] at h; exact StepResult.noConfusion h
  | ok coerced =>
    simp only [hc] at h
    cases hk : checkUnique db.indexes coerced (uniqueColumns db.schema) with
    | err e0 => simp only [hk] at h; exact StepResult.noConfusion h
    | ok u =>
      cases u
      simp only [hk] at h
      cases hA : addToIndexes coerced (.int (Storage.append_row db.file coerced).2)
          (uniqueColumns db.schema) db.indexes with
      | err e0 idxs0 => simp only [hA] at h; exact StepResult.noConfusion h
      | ok idxs' =>
        simp only [hA] at h
        injection h with h1 h2
        refine ⟨?_, coerced, idxs', rfl, hk, ?_, ?_⟩
        · rw [← h2]
          rfl
        · exact hA
        · rw [← h1]
          rfl

theorem WF_insert (db : MiniDB) (row : Dict) (db' : MiniDB) (rid : Nat)
    (hwf : WF db) (h : db.insert row = .ok db' rid) : WF db' := by
  obtain ⟨-, coerced, idxs', -, -, hadd, hdb'⟩ := insert_ok_spec db row db' rid h
  subst hdb'
  intro u hu
  rw [addToIndexes_isSome coerced _ _ _ _ hadd u]
  exact hwf u hu

theorem insert_eq_err_unique (db : MiniDB) (row c : Dict)
    (hc : coerceRow (columnMap db.schema.columns) row = .ok c)
    (hk : checkUnique db.indexes c (uniqueColumns db.schema) = .err .uniqueViolation) :
    db.insert row = .err .uniqueViolation db := by
  unfold MiniDB.insert
  simp only [hc, hk]

/-- C1: for every table and input row, a failing INSERT (coercion
`TypeError`, `NotNullViolation`, or `UniqueConstraintViolation` — indeed
any raised error) occurs before any mutation, leaving the persisted row
sequence and every uniqueness index unchanged; on success INSERT appends
exactly one row and returns that row's assigned `_rid`; and in particular,
after a successful insert, a second insert whose coerced primary-key value
equals the first one's (and which passes coercion) fails with
`UniqueConstraintViolation` and leaves the state — hence the row count —
unchanged. -/
theorem insert_atomicity (db : MiniDB) (row row2 : Dict) :
    (∀ e db', db.insert row = .err e db' → db' = db) ∧
    (∀ db' rid, db.insert row = .ok db' rid →
      rid = db.file.length ∧
      ∃ r, db'.file = db.file ++ [r] ∧ alookup r "_rid" = some (.int rid)) ∧
    (∀ col c1 c2 db1 rid1,
      WF db → col ∈ db.schema.columns → col.primary_key = true →
      coerceRow (columnMap db.schema.columns) row = .ok c1 →
      coerceRow (columnMap db.schema.columns) row2 = .ok c2 →
      dictGetD c2 col.name = dictGetD c1 col.name →
      dictGetD c1 col.name ≠ PyVal.none →
      db.insert row = .ok db1 rid1 →
      db1.insert row2 = .err .uniqueViolation db1) := by
  refine ⟨insert_err_state db row, ?_, ?_⟩
  · intro db' rid h
    obtain ⟨hrid, coerced, idxs', hc, hk, hadd, hdb'⟩ := insert_ok_spec db row db' rid h
    subst hdb'
    subst hrid
    exact ⟨rfl, aset coerced "_rid" (.int db.file.length), rfl,
      alookup_aset_self coerced "_rid" _⟩
  · intro col c1 c2 db1 rid1 hwf hcol hpk hc1 hc2 heq hnn hins
    obtain ⟨hrid, coerced, idxs', hc, hk, hadd, hdb1⟩ := insert_ok_spec db row db1 rid1 hins
    have hcc : c1 = coerced := by
      rw [hc1] at hc
      injection hc
    subst hcc
    have hpkmem : col.name ∈ uniqueColumns db.schema :=
      mem_uniqueColumns_of db.schema col hcol (by rw [hpk]; simp)
    obtain ⟨idx, hlook, hsome⟩ := addToIndexes_get_self c1 (.int db.file.length) col.name
      (uniqueColumns db.schema) db.indexes idxs' (nodup_uniqueColumns db.schema)
      hpkmem hnn hadd
    have hwf1 : WF db1 := WF_insert db row db1 rid1 hwf hins
    have hsch : db1.schema = db.schema := by rw [hdb1]
    have hidx1 : db1.indexes = idxs' := by rw [hdb1]
    have hchk2 : checkUnique db1.indexes c2 (uniqueColumns db1.schema)
        = .err .uniqueViolation := by
      rw [hidx1, hsch]
      refine checkUnique_err_of_present c2 col.name (dictGetD c1 col.name)
        (uniqueColumns db.schema) idxs' hpkmem ?_ heq hnn ?_
      · intro u hu
        have hm : u ∈ uniqueColumns db1.schema := by rw [hsch]; exact hu
        have hS := hwf1 u hm
        rw [hidx1] at hS
        exact hS
      · intro idx0 h0
        rw [hlook] at h0
        injection h0 with h0
        subst h0
        exact hsome
    have hc2' : coerceRow (columnMap db1.schema.columns) row2 = .ok c2 := by
      rw [hsch]
      exact hc2
    exact insert_eq_err_unique db1 row2 c2 hc2' hchk2

/-! Specification lemmas for `MiniDB.update` and `MiniDB.delete`. -/

theorem applyAssignments_alookup (cmap : List (String × Column)) (k : String)
    (hk : alookup cmap k = Option.none) :
    ∀ (updates : List (String × PyVal)) (r r' : Dict),
      applyAssignments cmap updates r = .ok r' →
      alookup r' k = alookup r k := by
  intro updates
  induction updates with
  | nil =>
    intro r r' h
    injection h with h
    rw [h]
  | cons p rest ih =>
    obtain ⟨col, nv⟩ := p
    intro r r' h
    simp only [applyAssignments] at h
    cases hl : alookup cmap col with
    | none => simp only [hl] at h; exact CRes.noConfusion h
    | some cdef =>
      simp only [hl] at h
      cases hcv : coerce_value cdef.col_type nv with
      | err e => simp only [hcv] at h; exact CRes.noConfusion h
      | ok v =>
        simp only [hcv] at h
        by_cases hnn : cdef.not_null ∧ v = PyVal.none
        · rw [if_pos hnn] at h; exact CRes.noConfusion h
        · rw [if_neg hnn] at h
          have hne : k ≠ col := by
            intro e
            subst e
            rw [hk] at hl
            exact Option.noConfusion hl
          rw [ih _ _ h]
          exact alookup_aset_ne r col k v hne

theorem updateRows_rid (cmap : List (String × Column)) (updates : List (String × PyVal))
    (w : Option (List Cond)) (hk : alookup cmap "_rid" = Option.none) :
    ∀ (rows rows' : List Dict) (n : Nat),
      updateRows cmap updates w rows = .ok (rows', n) →
      List.Forall₂ (fun r r' => alookup r' "_rid" = alookup r "_rid") rows rows' := by
  intro rows
  induction rows with
  | nil =>
    intro rows' n h
    injection h with h
    injection h with h1 h2
    subst h1
    exact List.Forall₂.nil
  | cons r rs ih =>
    intro rows' n h
    simp only [updateRows] at h
    cases hm : matchWhere r w with
    | err e => simp only [hm] at h; exact CRes.noConfusion h
    | ok b =>
      cases b
      · simp only [hm] at h
        cases hrec : updateRows cmap updates w rs with
        | err e => simp only [hrec] at h; exact CRes.noConfusion h
        | ok p =>
          obtain ⟨rs', n'⟩ := p
          simp only [hrec] at h
          injection h with h
          injection h with h1 h2
          subst h1
          exact List.Forall₂.cons rfl (ih rs' n' hrec)
      · simp only [hm] at h
        cases hap : applyAssignments cmap updates r with
        | err e => simp only [hap] at h; exact CRes.noConfusion h
        | ok r2 =>
          simp only [hap] at h
          cases hrec : updateRows cmap updates w rs with
          | err e => simp only [hrec] at h; exact CRes.noConfusion h
          | ok p =>
            obtain ⟨rs', n'⟩ := p
            simp only [hrec] at h
            injection h with h
            injection h with h1 h2
            subst h1
            exact List.Forall₂.cons (applyAssignments_alookup cmap "_rid" hk updates r r2 hap)
              (ih rs' n' hrec)

theorem deleteRows_mem (w : Option (List Cond)) :
    ∀ (rows rows' : List Dict) (n : Nat),
      deleteRows w rows = .ok (rows', n) → ∀ r ∈ rows', r ∈ rows := by
  intro rows
  induction rows with
  | nil =>
    intro rows' n h r hr
    injection h with h
    injection h with h1 h2
    subst h1
    simp at hr
  | cons r0 rs ih =>
    intro rows' n h r hr
    simp only [deleteRows] at h
    cases hm : matchWhere r0 w with
    | err e => simp only [hm] at h; exact CRes.noConfusion h
    | ok b =>
      cases b
      · simp only [hm] at h
        cases hrec : deleteRows w rs with
        | err e => simp only [hrec] at h; exact CRes.noConfusion h
        | ok p =>
          obtain ⟨rs', n'⟩ := p
          simp only [hrec] at h
          injection h with h
          injection h with h1 h2
          subst h1
          rcases List.mem_cons.mp hr with rfl | hr2
          · exact List.mem_cons_self _ _
          · exact List.mem_cons_of_mem _ (ih rs' n' hrec r hr2)
      · simp only [hm] at h
        cases hrec : deleteRows w rs with
        | err e => simp only [hrec] at h; exact CRes.noConfusion h
        | ok p =>
          obtain ⟨rs', n'⟩ := p
          simp only [hrec] at h
          injection h with h
          injection h with h1 h2
          subst h1
          exact List.mem_cons_of_mem _ (ih rs' n' hrec r hr)

theorem forall2_getElem {α : Type} {R : α → α → Prop} :
    ∀ {l l' : List α}, List.Forall₂ R l l' →
      ∀ (i : Nat) (h : i < l.length) (h' : i < l'.length), R l[i] l'[i] := by
  intro l l' hf
  induction hf with
  | nil => intro i h; exact absurd h (Nat.not_lt_zero i)
  | @cons a b l1 l2 hr hrest ih =>
    intro i h h'
    cases i with
    | zero => simpa using hr
    | succ j =>
      simp only [List.getElem_cons_succ]
      exact ih j (Nat.lt_of_succ_lt_succ h) (Nat.lt_of_succ_lt_succ h')

theorem update_ok_spec (db : MiniDB) (updates : List (String × PyVal))
    (w : Option (List Cond)) (db' : MiniDB) (n : Nat)
    (h : db.update updates w = .ok db' n) :
    ∃ idxs', updateRows (columnMap db.schema.columns) updates w db.file = .ok (db'.file, n)
      ∧ db' = ⟨db.schema, db'.file, idxs'⟩ := by
  unfold MiniDB.update at h
  cases hu : updateRows (columnMap db.schema.columns) updates w db.file with
  | err e => simp only [hu] at h; exact StepResult.noConfusion h
  | ok p =>
    obtain ⟨rows', n0⟩ := p
    simp only [hu] at h
    cases hr : rebuildIndexes db.schema rows' with
    | err e idxs' => simp only [hr] at h; exact StepResult.noConfusion h
    | ok idxs' =>
      simp only [hr] at h
      injection h with h1 h2
      subst h2
      subst h1
      exact ⟨idxs', rfl, rfl⟩

theorem delete_ok_spec (db : MiniDB) (w : Option (List Cond)) (db' : MiniDB) (n : Nat)
    (h : db.delete w = .ok db' n) :
    ∃ idxs', deleteRows w db.file = .ok (db'.file, n)
      ∧ db' = ⟨db.schema, db'.file, idxs'⟩ := by
  unfold MiniDB.delete at h
  cases hd : deleteRows w db.file with
  | err e => simp only [hd] at h; exact StepResult.noConfusion h
  | ok p =>
    obtain ⟨kept, n0⟩ := p
    simp only [hd] at h
    cases hr : rebuildIndexes db.schema kept with
    | err e idxs' => simp only [hr] at h; exact StepResult.noConfusion h
    | ok idxs' =>
      simp only [hr] at h
      injection h with h1 h2
      subst h2
      subst h1
      exact ⟨idxs', rfl, rfl⟩

/-! The `_rid`-equals-position invariant, maintained by INSERT and UPDATE
(but, as the counterexamples below show, destroyed by DELETE). -/

/-- Every persisted row's `_rid` field equals its zero-based file
position. -/
def ridPosF (file : List Dict) : Prop :=
  ∀ (i : Nat) (h : i < file.length), alookup file[i] "_rid" = some (.int i)

def ridPos (db : MiniDB) : Prop :=
  ridPosF db.file

theorem ridPosF_append (file : List Dict) (r : Dict) (hp : ridPosF file)
    (hr : alookup r "_rid" = some (.int file.length)) : ridPosF (file ++ [r]) := by
  intro i hi
  by_cases hlt : i < file.length
  · rw [List.getElem_append_left hlt]
    exact hp i hlt
  · have hieq : i = file.length := by
      simp only [List.length_append, List.length_cons, List.length_nil] at hi
      omega
    subst hieq
    simp only [List.getElem_concat_length]
    exact hr

theorem ridPos_insert (db : MiniDB) (row : Dict) (hp : ridPos db) :
    ridPos (stateOf (db.insert row)) := by
  cases h : db.insert row with
  | err e db' =>
    have he := insert_err_state db row e db' h
    subst he
    exact hp
  | ok db' rid =>
    obtain ⟨hrid, coerced, idxs', hc, hk, hadd, hdb'⟩ := insert_ok_spec db row db' rid h
    subst hdb'
    exact ridPosF_append db.file _ hp (alookup_aset_self coerced "_rid" _)

theorem update_err_spec (db : MiniDB) (updates : List (String × PyVal))
    (w : Option (List Cond)) (e : Err) (db' : MiniDB)
    (h : db.update updates w = .err e db') :
    db' = db ∨ ∃ rows' n idxs',
      updateRows (columnMap db.schema.columns) updates w db.file = .ok (rows', n) ∧
      db' = ⟨db.schema, rows', idxs'⟩ := by
  unfold MiniDB.update at h
  cases hu : updateRows (columnMap db.schema.columns) updates w db.file with
  | err e0 =>
    simp only [hu] at h
    injection h with h1 h2
    exact Or.inl h2.symm
  | ok p =>
    obtain ⟨rows', n⟩ := p
    simp only [hu] at h
    cases hr : rebuildIndexes db.schema rows' with
    | err e0 idxs' =>
      simp only [hr] at h
      injection h with h1 h2
      exact Or.inr ⟨rows', n, idxs', rfl, h2.symm⟩
    | ok idxs' =>
      simp only [hr] at h
      exact StepResult.noConfusion h

theorem delete_err_spec (db : MiniDB) (w : Option (List Cond)) (e : Err) (db' : MiniDB)
    (h : db.delete w = .err e db') :
    db' = db ∨ ∃ kept n idxs',
      deleteRows w db.file = .ok (kept, n) ∧
      db' = ⟨db.schema, kept, idxs'⟩ := by
  unfold MiniDB.delete at h
  cases hd : deleteRows w db.file with
  | err e0 =>
    simp only [hd] at h
    injection h with h1 h2
    exact Or.inl h2.symm
  | ok p =>
    obtain ⟨kept, n⟩ := p
    simp only [hd] at h
    cases hr : rebuildIndexes db.schema kept with
    | err e0 idxs' =>
      simp only [hr] at h
      injection h with h1 h2
      exact Or.inr ⟨kept, n, idxs', rfl, h2.symm⟩
    | ok idxs' =>
      simp only [hr] at h
      exact StepResult.noConfusion h

theorem update_state_spec (db : MiniDB) (updates : List (String × PyVal))
    (w : Option (List Cond)) :
    stateOf (db.update updates w) = db ∨
    ∃ rows' n idxs',
      updateRows (columnMap db.schema.columns) updates w db.file = .ok (rows', n) ∧
      stateOf (db.update updates w) = ⟨db.schema, rows', idxs'⟩ := by
  cases h : db.update updates w with
  | err e db' =>
    rcases update_err_spec db updates w e db' h with h2 | ⟨rows', n, idxs', hu, h2⟩
    · exact Or.inl h2
    · exact Or.inr ⟨rows', n, idxs', hu, h2⟩
  | ok db' n =>
    obtain ⟨idxs', hu, hdb'⟩ := update_ok_spec db updates w db' n h
    exact Or.inr ⟨db'.file, n, idxs', hu, hdb'⟩

theorem delete_state_spec (db : MiniDB) (w : Option (List Cond)) :
    stateOf (db.delete w) = db ∨
    ∃ kept n idxs',
      deleteRows w db.file = .ok (kept, n) ∧
      stateOf (db.delete w) = ⟨db.schema, kept, idxs'⟩ := by
  cases h : db.delete w with
  | err e db' =>
    rcases delete_err_spec db w e db' h with h2 | ⟨kept, n, idxs', hd, h2⟩
    · exact Or.inl h2
    · exact Or.inr ⟨kept, n, idxs', hd, h2⟩
  | ok db' n =>
    obtain ⟨idxs', hd, hdb'⟩ := delete_ok_spec db w db' n h
    exact Or.inr ⟨db'.file, n, idxs', hd, hdb'⟩

theorem ridPos_update (db : MiniDB) (updates : List (String × PyVal))
    (w : Option (List Cond))
    (hcol : alookup (columnMap db.schema.columns) "_rid" = Option.none)
    (hp : ridPos db) : ridPos (stateOf (db.update updates w)) := by
  rcases update_state_spec db updates w with h | ⟨rows', n, idxs', hu, h⟩
  · rw [h]
    exact hp
  · rw [h]
    have hf2 := updateRows_rid _ _ _ hcol db.file rows' n hu
    have hlen := List.Forall₂.length_eq hf2
    intro i hi
    have hi0 : i < db.file.length := by rw [hlen]; exact hi
    rw [forall2_getElem hf2 i hi0 hi]
    exact hp i hi0

theorem ridPos_applyOp (db : MiniDB) (op : Op)
    (hcol : "_rid" ∉ db.schema.columns.map Column.name)
    (hnd : op.isDel = false) (hp : ridPos db) : ridPos (applyOp db op) := by
  cases op with
  | ins r => exact ridPos_insert db r hp
  | upd u w => exact ridPos_update db u w (alookup_columnMap_none _ _ hcol) hp
  | del w => exact absurd hnd (by simp [Op.isDel])

theorem schema_stateOf_insert (db : MiniDB) (row : Dict) :
    (stateOf (db.insert row)).schema = db.schema := by
  cases h : db.insert row with
  | err e db' =>
    have he := insert_err_state db row e db' h
    subst he
    rfl
  | ok db' rid =>
    obtain ⟨-, coerced, idxs', -, -, -, hdb'⟩ := insert_ok_spec db row db' rid h
    subst hdb'
    rfl

theorem schema_stateOf_update (db : MiniDB) (updates : List (String × PyVal))
    (w : Option (List Cond)) : (stateOf (db.update updates w)).schema = db.schema := by
  rcases update_state_spec db updates w with h | ⟨rows', n, idxs', -, h⟩ <;> rw [h]

theorem schema_stateOf_delete (db : MiniDB) (w : Option (List Cond)) :
    (stateOf (db.delete w)).schema = db.schema := by
  rcases delete_state_spec db w with h | ⟨kept, n, idxs', -, h⟩ <;> rw [h]

theorem schema_applyOp (db : MiniDB) (op : Op) : (applyOp db op).schema = db.schema := by
  cases op with
  | ins r => exact schema_stateOf_insert db r
  | upd u w => exact schema_stateOf_update db u w
  | del w => exact schema_stateOf_delete db w

theorem ridPos_runOps (schema : TableSchema) (ops : List Op)
    (hcol : "_rid" ∉ schema.columns.map Column.name)
    (hops : ∀ op ∈ ops, op.isDel = false) : ridPos (runOps schema ops) := by
  have base : ridPos (MiniDB.create_table schema) := by
    intro i hi
    exact absurd hi (Nat.not_lt_zero i)
  have H : ∀ (l : List Op) (db : MiniDB), db.schema = schema →
      (∀ op ∈ l, op.isDel = false) → ridPos db → ridPos (l.foldl applyOp db) := by
    intro l
    induction l with
    | nil => intro db _ _ hp; exact hp
    | cons op rest ih =>
      intro db hsch hop hp
      rw [List.foldl_cons]
      refine ih _ ?_ (fun o ho => hop o (List.mem_cons_of_mem _ ho)) ?_
      · rw [schema_applyOp]
        exact hsch
      · refine ridPos_applyOp db op ?_ (hop op (List.mem_cons_self _ _)) hp
        rw [hsch]
        exact hcol
  exact H ops (MiniDB.create_table schema) rfl hops base

theorem ridPos_nodup (db : MiniDB) (hp : ridPos db) :
    (db.file.map (fun r => alookup r "_rid")).Nodup := by
  have hmap : db.file.map (fun r => alookup r "_rid")
      = (List.range db.file.length).map (fun i : Nat => some (PyVal.int (Int.ofNat i))) := by
    apply List.ext_getElem
    · simp
    · intro i h1 h2
      simp only [List.getElem_map, List.getElem_range]
      exact hp i (by simpa using h1)
  rw [hmap]
  refine List.Nodup.map ?_ (List.nodup_range _)
  intro a b hab
  simp only [Option.some.injEq, PyVal.int.injEq] at hab
  exact Int.ofNat.inj hab

theorem ridPos_fresh (db : MiniDB) (row : Dict) (hp : ridPos db) :
    ∀ db' rid, db.insert row = .ok db' rid →
      ∀ r ∈ db.file, alookup r "_rid" ≠ some (.int rid) := by
  intro db' rid hins r hr
  obtain ⟨hrid, -⟩ := insert_ok_spec db row db' rid hins
  subst hrid
  obtain ⟨i, hi, hgi⟩ := List.getElem_of_mem hr
  subst hgi
  rw [hp i hi]
  intro hcontra
  injection hcontra with hcontra
  injection hcontra with hcontra
  omega

/-! Concrete states used by counterexamples and witnesses: the table
`users(id INT PRIMARY KEY)`. -/

def usersSchema : TableSchema :=
  ⟨"users", [⟨"id", .INT, true, false, false⟩]⟩

def dbUsers0 : MiniDB := MiniDB.create_table usersSchema

/-- `users` after `INSERT id=1`. -/
def dbUsers1 : MiniDB := stateOf (dbUsers0.insert [("id", .int 1)])

/-- `users` after `INSERT id=0; INSERT id=1`. -/
def dbTwo : MiniDB :=
  runOps usersSchema [.ins [("id", .int 0)], .ins [("id", .int 1)]]

/-- `dbTwo` after `DELETE WHERE id=0`. -/
def dbTwoDel : MiniDB := stateOf (dbTwo.delete (some [("id", "=", .int 0)]))

/-- `dbTwoDel` after one further `INSERT id=2`. -/
def dbTwoDelIns : MiniDB := stateOf (dbTwoDel.insert [("id", .int 2)])

/-- C2 counterexample: after `INSERT id=0; INSERT id=1; DELETE WHERE
id=0`, the file holds one row that still carries `_rid = 1`; the next
INSERT is assigned `_rid = 1` again — the identifier of a currently
persisted row is reused — and the two persisted rows then carry identical
`_rid`s, so they are not pairwise distinct. -/
theorem rid_reuse_after_delete_cex :
    dbTwoDel.file.map (fun r => alookup r "_rid") = [some (.int 1)] ∧
    dbTwoDel.insert [("id", .int 2)] = .ok dbTwoDelIns 1 ∧
    dbTwoDelIns.file.map (fun r => alookup r "_rid") = [some (.int 1), some (.int 1)] ∧
    ¬ (dbTwoDelIns.file.map (fun r => alookup r "_rid")).Nodup := by
  refine ⟨by decide, by decide, by decide, by decide⟩

/-- C2 amended: for every sequence of CREATE/INSERT/UPDATE operations (no
DELETE) on a table whose schema has no column literally named `_rid`, the
persisted rows have pairwise-distinct `_rid`s, and the `_rid` a further
successful INSERT assigns differs from the `_rid` of every currently
persisted row. -/
theorem insert_rid_fresh_no_delete (schema : TableSchema) (ops : List Op) (row : Dict)
    (hcol : "_rid" ∉ schema.columns.map Column.name)
    (hops : ∀ op ∈ ops, op.isDel = false) :
    ((runOps schema ops).file.map (fun r => alookup r "_rid")).Nodup ∧
    ∀ db' rid, (runOps schema ops).insert row = .ok db' rid →
      ∀ r ∈ (runOps schema ops).file, alookup r "_rid" ≠ some (.int rid) :=
  ⟨ridPos_nodup _ (ridPos_runOps schema ops hcol hops),
   ridPos_fresh _ row (ridPos_runOps schema ops hcol hops)⟩

theorem insert_rid_fresh_no_delete_witness :
    alookup [("id", PyVal.int 1), ("_rid", PyVal.int 0)] "_rid" ≠ some (PyVal.int 1) :=
  (insert_rid_fresh_no_delete usersSchema [.ins [("id", PyVal.int 1)]]
      [("id", PyVal.int 2)] (by decide) (by decide)).2
    (stateOf ((runOps usersSchema [.ins [("id", PyVal.int 1)]]).insert
      [("id", PyVal.int 2)]))
    1 (by decide) [("id", PyVal.int 1), ("_rid", PyVal.int 0)] (by decide)

/-- C3 counterexample: deleting the first of two rows returns 1 and
leaves a one-row file whose surviving row, now at position 0, still
carries `_rid = 1` — the rewrite did not recompute identifiers from file
position. -/
theorem rid_position_after_delete_cex :
    dbTwo.delete (some [("id", "=", PyVal.int 0)]) = .ok dbTwoDel 1 ∧
    dbTwoDel.file.map (fun r => alookup r "_rid") = [some (.int 1)] ∧
    ¬ ridPos dbTwoDel := by
  refine ⟨by decide, by decide, ?_⟩
  intro hp
  have h0 := hp 0 (by decide)
  exact absurd h0 (by decide)

/-- C3 amended: row identifiers are preserved by the rewrite, not
recomputed from file position.  After every successful DELETE, each
surviving row's record is kept verbatim from the old file (in particular
it keeps exactly the `_rid` it had before the operation); after every
successful UPDATE on a table whose schema has no column literally named
`_rid` — SET assignments are confined to schema columns, so only such a
pathological schema lets an assignment reach the `_rid` key — every file
position keeps the `_rid` it held before the operation. -/
theorem rewrite_preserves_rids (db : MiniDB) (updates : List (String × PyVal))
    (w : Option (List Cond)) :
    (∀ db' n, db.delete w = .ok db' n → ∀ r ∈ db'.file, r ∈ db.file) ∧
    (∀ db' n, "_rid" ∉ db.schema.columns.map Column.name →
      db.update updates w = .ok db' n →
      db'.file.length = db.file.length ∧
      ∀ (i : Nat) (h1 : i < db'.file.length) (h2 : i < db.file.length),
        alookup db'.file[i] "_rid" = alookup db.file[i] "_rid") := by
  constructor
  · intro db' n h r hr
    obtain ⟨idxs', hd, -⟩ := delete_ok_spec db w db' n h
    exact deleteRows_mem w db.file db'.file n hd r hr
  · intro db' n hcol h
    obtain ⟨idxs', hu, -⟩ := update_ok_spec db updates w db' n h
    have hf2 := updateRows_rid _ _ _ (alookup_columnMap_none _ _ hcol) db.file db'.file n hu
    have hlen := List.Forall₂.length_eq hf2
    exact ⟨hlen.symm, fun i h1 h2 => forall2_getElem hf2 i h2 h1⟩

/-- `dbTwo` after `UPDATE SET id=5 WHERE id=0`. -/
def dbTwoUpd : MiniDB :=
  stateOf (dbTwo.update [("id", .int 5)] (some [("id", "=", .int 0)]))

theorem rewrite_preserves_rids_witness :
    [("id", PyVal.int 1), ("_rid", PyVal.int 1)] ∈ dbTwo.file ∧
    dbTwoUpd.file.length = dbTwo.file.length ∧
    alookup (dbTwoUpd.file.get ⟨0, by decide⟩) "_rid"
      = alookup (dbTwo.file.get ⟨0, by decide⟩) "_rid" :=
  ⟨(rewrite_preserves_rids dbTwo [("id", PyVal.int 5)]
      (some [("id", "=", PyVal.int 0)])).1
    dbTwoDel 1 (by decide) [("id", PyVal.int 1), ("_rid", PyVal.int 1)] (by decide),
   ((rewrite_preserves_rids dbTwo [("id", PyVal.int 5)]
      (some [("id", "=", PyVal.int 0)])).2
    dbTwoUpd 1 (by decide) (by decide)).1,
   ((rewrite_preserves_rids dbTwo [("id", PyVal.int 5)]
      (some [("id", "=", PyVal.int 0)])).2
    dbTwoUpd 1 (by decide) (by decide)).2 0 (by decide) (by decide)⟩

theorem insert_atomicity_witness :
    dbUsers1.insert [("id", PyVal.int 1)] = .err .uniqueViolation dbUsers1 :=
  (insert_atomicity dbUsers0 [("id", PyVal.int 1)] [("id", PyVal.int 1)]).2.2
    ⟨"id", .INT, true, false, false⟩ [("id", PyVal.int 1)] [("id", PyVal.int 1)]
    dbUsers1 0 (by decide) (by decide) (by decide) (by decide) (by decide)
    (by decide) (by decide) (by decide)
